import Mathlib

/-!
Shallow embedding of the SSR-detection tool (`detectssr.js` and its extended
variant). The core analysis `detectSSR` inspects a project — a local directory
or a GitHub repository — and returns a report with a boolean verdict
(`needsSSR`), an evidence list, an optional detected framework, and a
confidence score. File-system state, the remote repository tree, remote code
search, and the JSON parser (a language builtin) are modelled as explicit
parameters of a `World`; throwing code is modelled with `Except`, with the
top-level `try/catch` of `detectSSR` made explicit.
-/

/-- The analysis report (`results` object in the source): verdict, evidence
audit trail, optional framework label, and accumulated confidence score. -/
structure Results where
  needsSSR : Bool
  evidence : List String
  frameworkDetected : Option String
  confidence : Nat
deriving Repr, DecidableEq

/-- The two dependency maps of a parsed `package.json`, as association lists
from package name to version string. -/
structure Manifest where
  dependencies : List (String × String)
  devDependencies : List (String × String)
deriving Repr

/-- A node of the local file system: a file with text content, or a directory
with named children (in `readdirSync` order). -/
inductive FSNode where
  | file (content : String)
  | dir (entries : List (String × FSNode))
deriving Repr

/-- One entry of a remote (GitHub API) directory listing: a file, or a
directory with its own listing. -/
inductive Entry where
  | file (name : String)
  | dir (name : String) (children : List Entry)
deriving Repr

/-- `isPreOf p l` is true when the character list `p` is a prefix of `l`. -/
def isPreOf : List Char → List Char → Bool
  | [], _ => true
  | _ :: _, [] => false
  | a :: as, b :: bs => a = b && isPreOf as bs

/-- `containsSub p l`: the character list `p` occurs as a contiguous substring
of `l` (the semantics of JavaScript `String.prototype.includes`). -/
def containsSub (p : List Char) : List Char → Bool
  | [] => isPreOf p []
  | c :: rest => isPreOf p (c :: rest) || containsSub p rest

/-- `String.includes` of the source: substring test. -/
def strIncludes (s pat : String) : Bool := containsSub pat.data s.data

/-- JavaScript `String.prototype.replace` with a plain-string pattern and empty
replacement: remove the first occurrence of `p` (scanning left to right). -/
def replaceFirst (p : List Char) : List Char → List Char
  | [] => []
  | c :: rest =>
    if isPreOf p (c :: rest) then (c :: rest).drop p.length
    else c :: replaceFirst p rest

/-- Attempt to match the regex `github\.com\/([^\/]+)\/([^\/]+)` at the start
of `l`: the literal `github.com/`, then one or more non-slash characters
(group 1, greedy), a slash, and one or more non-slash characters (group 2). -/
def githubMatchAt (l : List Char) : Option (List Char × List Char) :=
  if isPreOf "github.com/".data l then
    let rest := l.drop 11
    let owner := rest.takeWhile (fun c => c ≠ '/')
    if owner.isEmpty then none
    else
      match rest.drop owner.length with
      | [] => none
      | c2 :: rest2 =>
        if c2 = '/' then
          let repo := rest2.takeWhile (fun c => c ≠ '/')
          if repo.isEmpty then none else some (owner, repo)
        else none
  else none

/-- Leftmost match of the GitHub regex in a character list, as performed by
JavaScript `RegExp.prototype.test` / `String.prototype.match`. -/
def githubFind : List Char → Option (List Char × List Char)
  | [] => none
  | c :: rest =>
    match githubMatchAt (c :: rest) with
    | some r => some r
    | none => githubFind rest

/-- `githubRegex.test(repoPathOrUrl)` of the source: unanchored search. -/
def isGithubUrl (s : String) : Bool := (githubFind s.data).isSome

/-- The characters of the replace pattern `.git`. -/
def dotGit : List Char := ".git".data

/-- Owner and repository extraction of the source: group 1 is the owner and
group 2, with `.replace(".git", "")` applied, is the repository name. -/
def extractOwnerRepo (s : String) : Option (String × String) :=
  (githubFind s.data).map
    (fun x => (String.mk x.1, String.mk (replaceFirst dotGit x.2)))

/-- JavaScript truthiness of `allDependencies[dep]` for string-valued
dependency maps: `undefined` (absent key) and the empty string are falsy. -/
def truthyDep (v? : Option String) : Bool :=
  match v? with
  | some v => v ≠ ""
  | none => false

/-- The merged map `{...dependencies, ...devDependencies}` of the source,
looked up at key `k`: a `devDependencies` entry overrides a `dependencies`
entry with the same key. -/
def mergedVal (m : Manifest) (k : String) : Option String :=
  match m.devDependencies.lookup k with
  | some v => some v
  | none => m.dependencies.lookup k

/-- The `ssrFrameworks` table of the source, in `Object.entries` order. -/
def ssrFrameworksTable : List (String × String) :=
  [("next", "Next.js"),
   ("nuxt", "Nuxt.js"),
   ("@nuxt/core", "Nuxt.js"),
   ("@sveltejs/kit", "SvelteKit"),
   ("@remix-run/react", "Remix"),
   ("gatsby", "Gatsby"),
   ("angular-universal", "Angular Universal"),
   ("@angular/platform-server", "Angular Universal"),
   ("@nestjs/ng-universal", "Nest.js with Angular Universal")]

/-- The `ssrLibraries` list of the source. -/
def ssrLibrariesTable : List String :=
  ["react-dom/server",
   "vue-server-renderer",
   "preact-render-to-string",
   "svelte/server",
   "express-react-views"]

/-- The `serverPackages` list of the source. -/
def serverPackagesTable : List String :=
  ["express", "koa", "fastify", "hapi", "@nestjs/core"]

/-- The `configFiles` table of the source, in `Object.entries` order. -/
def configFilesTable : List (String × String) :=
  [("next.config.js", "Next.js"),
   ("nuxt.config.js", "Nuxt.js"),
   ("svelte.config.js", "SvelteKit"),
   ("remix.config.js", "Remix"),
   ("gatsby-config.js", "Gatsby"),
   ("angular.json", "Angular")]

/-- The `ssrDirectories` list of the source. -/
def ssrDirectoriesTable : List (String × String) :=
  [("pages", "Next.js"),
   ("pages/api", "Next.js API Routes"),
   ("app", "Next.js App Router"),
   ("server", "Generic Server"),
   ("serverless", "Serverless Functions"),
   ("api", "API Routes"),
   ("functions", "Serverless Functions"),
   ("lambda", "AWS Lambda Functions")]

/-- The literal tokens `searchForSSRFunctions` looks for in page sources. -/
def ssrTokens : List String :=
  ["getServerSideProps",
   "getInitialProps",
   "getStaticProps",
   "export async function generateMetadata",
   "export const generateMetadata"]

/-- The extension filter `[".js", ".jsx", ".ts", ".tsx"]` of the source. -/
def codeExts : List String := [".js", ".jsx", ".ts", ".tsx"]

/-- Index of the last `.` in a character list, if any. -/
def lastDotIdx (cs : List Char) : Option Nat :=
  (List.range cs.length).foldl
    (fun acc i => if cs.get? i = some '.' then some i else acc) none

/-- Node's `path.extname` on a base name: the substring from the last dot,
except that a dot in first position (hidden files) yields the empty string. -/
def extname (n : String) : String :=
  match lastDotIdx n.data with
  | some i => if i = 0 then "" else String.mk (n.data.drop i)
  | none => ""

/-- Extension filter applied by `getAllFiles` to a file's base name. -/
def extOk (n : String) : Bool := codeExts.contains (extname n)

/-- `getAllFiles` of the source composed with the per-file `readFileSync`:
the contents of every file under the given directory entries whose extension
passes the filter, in depth-first `readdirSync` order, skipping the
`node_modules` and `.git` subtrees. -/
def getAllFileContents : List (String × FSNode) → List String
  | [] => []
  | (n, FSNode.file c) :: rest =>
    (if extOk n then [c] else []) ++ getAllFileContents rest
  | (n, FSNode.dir es) :: rest =>
    (if n = "node_modules" ∨ n = ".git" then [] else getAllFileContents es)
      ++ getAllFileContents rest
termination_by l => sizeOf l

/-- `searchForSSRFunctions` of the source: some file under the directory
contains one of the SSR tokens. -/
def searchForSSRFunctions (es : List (String × FSNode)) : Bool :=
  (getAllFileContents es).any (fun c => ssrTokens.any (fun t => strIncludes c t))

/-- `searchForPattern` of the source: some file under the directory contains
the literal pattern. -/
def searchForPattern (es : List (String × FSNode)) (pat : String) : Bool :=
  (getAllFileContents es).any (fun c => strIncludes c pat)

/-- Look up a child by name in a directory's entries. -/
def childNode : List (String × FSNode) → String → Option FSNode
  | [], _ => none
  | (n, node) :: rest, k => if n = k then some node else childNode rest k

/-- Resolve a relative path (already split on `/`) against the node at the
analysis root; `none` models a path that does not exist on disk. -/
def navigate : Option FSNode → List String → Option FSNode
  | none, _ => none
  | some node, [] => some node
  | some (FSNode.file _), _ :: _ => none
  | some (FSNode.dir es), s :: rest => navigate (childNode es s) rest

/-- Split a relative path on `/` (auxiliary, accumulator reversed). -/
def splitSlashAux : List Char → List Char → List String
  | [], acc => [String.mk acc.reverse]
  | c :: rest, acc =>
    if c = '/' then String.mk acc.reverse :: splitSlashAux rest []
    else splitSlashAux rest (c :: acc)

/-- Split a relative path such as `pages/api` into its segments. -/
def splitSlash (s : String) : List String := splitSlashAux s.data []

/-- `path ? `${path}/${item.name}` : item.name` of `buildRepoStructure`. -/
def itemPath (path : String) (n : String) : String :=
  if path = "" then n else path ++ "/" ++ n

/-- The loop body of `buildRepoStructure`: every listed item is pushed onto
the shared `structure` array, and the walk descends into a directory only
while fewer than 100 paths have been collected
(`item.type === 'dir' && structure.length < 100`). -/
def buildStructAux : List Entry → String → List String → List String
  | [], _, structure0 => structure0
  | Entry.file n :: rest, path, structure0 =>
    buildStructAux rest path (structure0 ++ [itemPath path n])
  | Entry.dir n children :: rest, path, structure0 =>
    let p := itemPath path n
    let s1 := structure0 ++ [p]
    let s2 := if s1.length < 100 then buildStructAux children p s1 else s1
    buildStructAux rest path s2
termination_by l _ _ => sizeOf l

/-- `buildRepoStructure` of the source, applied to the repository's directory
tree: the depth-first collection of item paths starting from the root listing
with an empty accumulator. -/
def buildRepoStructure (tree : List Entry) : List String :=
  buildStructAux tree "" []

/-- The directory-existence test of the remote branch:
`repoStructure.some(item => item === dir.path || item.startsWith(dir.path + "/"))`. -/
def remoteDirExists (structure0 : List String) (d : String) : Bool :=
  structure0.any (fun item => item = d || isPreOf (d ++ "/").data item.data)

/-- The external collaborators of one analysis: the local file-system node at
the analysis root (`none` when the path does not exist), the remote
repository's directory tree, the fetched remote `package.json` text (`none`
when absent or the fetch failed), the two remote code-search calls, and the
`JSON.parse` builtin restricted to `package.json` bodies (`Except.error`
models a thrown parse error). -/
structure World where
  localRoot : Option FSNode
  remoteTree : List Entry
  remotePkg : Option String
  remoteSearchSSR : String → Bool
  remoteSearchPat : String → Bool
  parse : String → Except String Manifest

/-- The report as initialised at the top of `detectSSR`. -/
def initResults : Results :=
  { needsSSR := false, evidence := [], frameworkDetected := none, confidence := 0 }

/-- One iteration of the `ssrFrameworks` loop: on a truthy dependency entry,
append the evidence line, overwrite `frameworkDetected` unconditionally, add
30 to confidence, and force `needsSSR` true. -/
def frameworkStep (look : String → Option String) (r : Results) (e : String × String) : Results :=
  if truthyDep (look e.1) then
    { r with
      evidence := r.evidence ++ ["Found SSR framework: " ++ e.2 ++ " (" ++ e.1 ++ ")"]
      frameworkDetected := some e.2
      confidence := r.confidence + 30
      needsSSR := true }
  else r

/-- One iteration of the `ssrLibraries` loop: `lib.split("/")[0]` is looked
up; on a truthy entry, append evidence and add 10 to confidence. -/
def libStep (look : String → Option String) (r : Results) (lib : String) : Results :=
  let libName := String.mk (lib.data.takeWhile (fun c => c ≠ '/'))
  if truthyDep (look libName) then
    { r with
      evidence := r.evidence ++ ["Found potential SSR library: " ++ libName]
      confidence := r.confidence + 10 }
  else r

/-- One iteration of the `serverPackages` loop: on a truthy entry, append
evidence and add 5 to confidence. -/
def serverStep (look : String → Option String) (r : Results) (pkg : String) : Results :=
  if truthyDep (look pkg) then
    { r with
      evidence := r.evidence ++ ["Found server package: " ++ pkg]
      confidence := r.confidence + 5 }
  else r

/-- The manifest-analysis block (`if (packageJson) { ... }`): the three loops
over `ssrFrameworks`, `ssrLibraries` and `serverPackages`, skipped entirely
when no manifest was found. -/
def runManifest (m? : Option Manifest) (r : Results) : Results :=
  match m? with
  | none => r
  | some m =>
    let look := mergedVal m
    let r1 := ssrFrameworksTable.foldl (frameworkStep look) r
    let r2 := ssrLibrariesTable.foldl (libStep look) r1
    serverPackagesTable.foldl (serverStep look) r2

/-- One iteration of the `configFiles` loop: on a present file, append the
evidence line, set `frameworkDetected` only if still null
(`results.frameworkDetected || framework`), add 20 to confidence, and force
`needsSSR` true. -/
def configStep (hasFile : String → Bool) (r : Results) (e : String × String) : Results :=
  if hasFile e.1 then
    { r with
      evidence := r.evidence ++ ["Found configuration file for " ++ e.2 ++ ": " ++ e.1]
      frameworkDetected :=
        match r.frameworkDetected with
        | some f => some f
        | none => some e.2
      confidence := r.confidence + 20
      needsSSR := true }
  else r

/-- One iteration of the `ssrDirectories` loop: on an existing directory,
append evidence and add 10 to confidence; for `pages` and `app` additionally
run the SSR-functions search, which on a hit appends evidence, adds 15 and
forces `needsSSR` true. -/
def dirStep (dirExists : String → Bool) (ssrFuncs : String → Bool) (r : Results) (d : String × String) : Results :=
  if dirExists d.1 then
    let r1 :=
      { r with
        evidence := r.evidence ++ ["Found SSR-related directory: " ++ d.1 ++ " (indicates " ++ d.2 ++ ")"]
        confidence := r.confidence + 10 }
    if d.1 = "pages" ∨ d.1 = "app" then
      if ssrFuncs d.1 then
        { r1 with
          evidence := r1.evidence ++ ["Found SSR functions (getServerSideProps or getInitialProps) in " ++ d.1]
          confidence := r1.confidence + 15
          needsSSR := true }
      else r1
    else r1
  else r

/-- The `renderToString` hit: append evidence, add 15, force `needsSSR` true. -/
def patBump (r : Results) : Results :=
  { r with
    evidence := r.evidence ++ ["Found renderToString calls (React SSR)"]
    confidence := r.confidence + 15
    needsSSR := true }

/-- The final aggregation rule: `if (results.confidence > 30) results.needsSSR = true`. -/
def threshold (r : Results) : Results :=
  if r.confidence > 30 then { r with needsSSR := true } else r

/-- The `error.message` of `readdirSync` on a missing path. -/
def enoentMsg (p : String) : String :=
  "ENOENT: no such file or directory, scandir \x27" ++ p ++ "\x27"

/-- The `error.message` of `readdirSync` on a non-directory path. -/
def enotdirMsg (p : String) : String :=
  "ENOTDIR: not a directory, scandir \x27" ++ p ++ "\x27"

/-- The evidence line appended by the top-level `catch`. -/
def errLine (msg : String) : String := "Error analyzing repository: " ++ msg

/-- Local-mode manifest acquisition: `existsSync` then `readFileSync` then
`JSON.parse`. An absent `package.json` yields no manifest; a directory named
`package.json` makes `readFileSync` throw; a parse failure throws. -/
def localPkgParse (w : World) : Except String (Option Manifest) :=
  match navigate w.localRoot ["package.json"] with
  | some (FSNode.file c) =>
    match w.parse c with
    | Except.ok m => Except.ok (some m)
    | Except.error e => Except.error e
  | some (FSNode.dir _) => Except.error "EISDIR: illegal operation on a directory, read"
  | none => Except.ok none

/-- Remote-mode manifest acquisition: `getFileFromGithub` returns the text or
`null` (all fetch errors are caught inside it); a parse failure throws. -/
def remotePkgParse (w : World) : Except String (Option Manifest) :=
  match w.remotePkg with
  | none => Except.ok none
  | some c =>
    match w.parse c with
    | Except.ok m => Except.ok (some m)
    | Except.error e => Except.error e

/-- `fs.existsSync(path.join(repoPath, f))` of the local config-file loop. -/
def localHasFile (w : World) (f : String) : Bool :=
  (navigate w.localRoot (splitSlash f)).isSome

/-- `fs.existsSync(dirPath) && fs.statSync(dirPath).isDirectory()` of the
local directory loop. -/
def localIsDir (w : World) (d : String) : Bool :=
  match navigate w.localRoot (splitSlash d) with
  | some (FSNode.dir _) => true
  | _ => false

/-- Local `searchForSSRFunctions(dirPath)`, resolved against the root. -/
def localSSRFuncs (w : World) (p : String) : Bool :=
  match navigate w.localRoot (splitSlash p) with
  | some (FSNode.dir es) => searchForSSRFunctions es
  | _ => false

/-- The body of the `try` block of `detectSSR` in local mode. The final
`searchForPattern(repoPath, "renderToString")` calls `readdirSync` on the
analysis root itself, which throws when the root is missing or is a file;
`Except.error` carries the partial report together with the error message. -/
def localBody (w : World) (input : String) : Except (Results × String) Results :=
  match localPkgParse w with
  | Except.error e => Except.error (initResults, e)
  | Except.ok m? =>
    let r2 := runManifest m? initResults
    let r3 := configFilesTable.foldl (configStep (localHasFile w)) r2
    let r4 := ssrDirectoriesTable.foldl (dirStep (localIsDir w) (localSSRFuncs w)) r3
    match w.localRoot with
    | some (FSNode.dir es) =>
      Except.ok (threshold (if searchForPattern es "renderToString" then patBump r4 else r4))
    | some (FSNode.file _) => Except.error (r4, enotdirMsg input)
    | none => Except.error (r4, enoentMsg input)

/-- The body of the `try` block of `detectSSR` in remote mode: push the
`Analyzing GitHub repository` evidence line, build the repository structure,
fetch and parse `package.json` (a parse failure throws), then run the
config-file, directory and code-pattern detectors against the structure and
the remote code-search collaborators. -/
def remoteBody (w : World) (input : String) : Except (Results × String) Results :=
  match extractOwnerRepo input with
  | none => Except.ok initResults
  | some (owner, repo) =>
    let r1 := { initResults with
      evidence := ["Analyzing GitHub repository: " ++ owner ++ "/" ++ repo] }
    let structure0 := buildRepoStructure w.remoteTree
    match remotePkgParse w with
    | Except.error e => Except.error (r1, e)
    | Except.ok m? =>
      let r2 := runManifest m? r1
      let r3 := configFilesTable.foldl (configStep (fun f => structure0.contains f)) r2
      let r4 := ssrDirectoriesTable.foldl (dirStep (remoteDirExists structure0) w.remoteSearchSSR) r3
      Except.ok (threshold (if w.remoteSearchPat "renderToString" then patBump r4 else r4))

/-- The `try` block of `detectSSR`: classify the input with the GitHub regex
and run the matching mode. -/
def detectSSRBody (w : World) (input : String) : Except (Results × String) Results :=
  if isGithubUrl input then remoteBody w input else localBody w input

/-- `detectSSR` of the source: run the body; the top-level `catch` appends
`Error analyzing repository: {message}` to the partial report and the report
is returned either way. -/
def detectSSR (w : World) (input : String) : Results :=
  match detectSSRBody w input with
  | Except.ok r => r
  | Except.error (r, msg) => { r with evidence := r.evidence ++ [errLine msg] }

/-! ## Basic facts about the embedded operations -/

theorem navigate_none (l : List String) : navigate none l = none := by
  cases l <;> rfl

theorem navigate_file_nonempty (c : String) (l : List String) (h : l ≠ []) :
    navigate (some (FSNode.file c)) l = none := by
  cases l with
  | nil => exact absurd rfl h
  | cons s t => rfl

theorem splitSlashAux_ne_nil (cs : List Char) (acc : List Char) :
    splitSlashAux cs acc ≠ [] := by
  induction cs generalizing acc with
  | nil => simp [splitSlashAux]
  | cons c rest ih =>
    by_cases hc : c = '/' <;> simp [splitSlashAux, hc, ih]

theorem splitSlash_ne_nil (s : String) : splitSlash s ≠ [] :=
  splitSlashAux_ne_nil s.data []

theorem localHasFile_of_none (w : World) (h : w.localRoot = none) (f : String) :
    localHasFile w f = false := by
  simp [localHasFile, h, navigate_none]

theorem localHasFile_of_file (w : World) (c : String)
    (h : w.localRoot = some (FSNode.file c)) (f : String) :
    localHasFile w f = false := by
  simp [localHasFile, h, navigate_file_nonempty c _ (splitSlash_ne_nil f)]

theorem localIsDir_of_none (w : World) (h : w.localRoot = none) (d : String) :
    localIsDir w d = false := by
  simp [localIsDir, h, navigate_none]

theorem localIsDir_of_file (w : World) (c : String)
    (h : w.localRoot = some (FSNode.file c)) (d : String) :
    localIsDir w d = false := by
  simp [localIsDir, h, navigate_file_nonempty c _ (splitSlash_ne_nil d)]

theorem configStep_id (hf : String → Bool) (r : Results) (e : String × String)
    (h : hf e.1 = false) : configStep hf r e = r := by
  simp [configStep, h]

theorem dirStep_id (de sf : String → Bool) (r : Results) (d : String × String)
    (h : de d.1 = false) : dirStep de sf r d = r := by
  simp [dirStep, h]

theorem foldl_id {α : Type} (f : Results → α → Results) (l : List α) (r : Results)
    (h : ∀ r a, f r a = r) : l.foldl f r = r := by
  induction l generalizing r with
  | nil => rfl
  | cons a t ih => simp only [List.foldl_cons, h]; exact ih r

/-- When the analysis root is missing, the local try-block finds no manifest,
no config file and no directory, and the final `readdirSync` throws ENOENT. -/
theorem localBody_none (w : World) (input : String) (h : w.localRoot = none) :
    localBody w input = Except.error (initResults, enoentMsg input) := by
  have hc : ∀ r e, configStep (localHasFile w) r e = r := fun r e =>
    configStep_id _ r e (localHasFile_of_none w h e.1)
  have hd : ∀ r d, dirStep (localIsDir w) (localSSRFuncs w) r d = r := fun r d =>
    dirStep_id _ _ r d (localIsDir_of_none w h d.1)
  simp [localBody, localPkgParse, h, navigate_none, runManifest,
    foldl_id _ _ _ hc, foldl_id _ _ _ hd]

/-- When the analysis root is a plain file, the local try-block finds no
manifest, no config file and no directory, and the final `readdirSync` throws
ENOTDIR. -/
theorem localBody_file (w : World) (input c : String)
    (h : w.localRoot = some (FSNode.file c)) :
    localBody w input = Except.error (initResults, enotdirMsg input) := by
  have hc : ∀ r e, configStep (localHasFile w) r e = r := fun r e =>
    configStep_id _ r e (localHasFile_of_file w c h e.1)
  have hd : ∀ r d, dirStep (localIsDir w) (localSSRFuncs w) r d = r := fun r d =>
    dirStep_id _ _ r d (localIsDir_of_file w c h d.1)
  simp [localBody, localPkgParse, h,
    navigate_file_nonempty c ["package.json"] (by simp), runManifest,
    foldl_id _ _ _ hc, foldl_id _ _ _ hd]

/-- Every normal exit of the try block is either the untouched initial report
(the unreachable no-regex-match branch of remote mode) or the image of the
final `confidence > 30` rule. -/
theorem detectSSRBody_ok_shape (w : World) (input : String) (r : Results)
    (h : detectSSRBody w input = Except.ok r) :
    r = initResults ∨ ∃ r5, r = threshold r5 := by
  unfold detectSSRBody at h
  by_cases hg : isGithubUrl input = true
  · rw [if_pos hg] at h
    unfold remoteBody at h
    cases hex : extractOwnerRepo input with
    | none => rw [hex] at h; left; exact (Except.ok.injEq _ _ ▸ h).symm
    | some pr =>
      obtain ⟨o, rp⟩ := pr
      rw [hex] at h
      simp only at h
      cases hpk : remotePkgParse w with
      | error e => rw [hpk] at h; exact absurd h (by simp)
      | ok m? => rw [hpk] at h; right; exact ⟨_, (by simpa using h.symm)⟩
  · rw [if_neg hg] at h
    cases hroot : w.localRoot with
    | none => rw [localBody_none w input hroot] at h; exact absurd h (by simp)
    | some node =>
      cases node with
      | file c => rw [localBody_file w input c hroot] at h; exact absurd h (by simp)
      | dir es =>
        unfold localBody at h
        cases hpk : localPkgParse w with
        | error e => rw [hpk] at h; exact absurd h (by simp)
        | ok m? =>
          rw [hpk] at h
          simp only [hroot] at h
          right; exact ⟨_, (by simpa using h.symm)⟩

/-- Every abnormal exit of the try block carries a partial report whose
confidence is still 0. -/
theorem detectSSRBody_error_conf (w : World) (input : String) (r : Results)
    (msg : String) (h : detectSSRBody w input = Except.error (r, msg)) :
    r.confidence = 0 := by
  unfold detectSSRBody at h
  by_cases hg : isGithubUrl input = true
  · rw [if_pos hg] at h
    unfold remoteBody at h
    cases hex : extractOwnerRepo input with
    | none => rw [hex] at h; exact absurd h (by simp)
    | some pr =>
      obtain ⟨o, rp⟩ := pr
      rw [hex] at h
      simp only at h
      cases hpk : remotePkgParse w with
      | error e =>
        rw [hpk] at h
        simp only [Except.error.injEq, Prod.mk.injEq] at h
        rw [← h.1]; rfl
      | ok m? => rw [hpk] at h; exact absurd h (by simp)
  · rw [if_neg hg] at h
    cases hroot : w.localRoot with
    | none =>
      rw [localBody_none w input hroot] at h
      simp only [Except.error.injEq, Prod.mk.injEq] at h
      rw [← h.1]; rfl
    | some node =>
      cases node with
      | file c =>
        rw [localBody_file w input c hroot] at h
        simp only [Except.error.injEq, Prod.mk.injEq] at h
        rw [← h.1]; rfl
      | dir es =>
        unfold localBody at h
        cases hpk : localPkgParse w with
        | error e =>
          rw [hpk] at h
          simp only [Except.error.injEq, Prod.mk.injEq] at h
          rw [← h.1]; rfl
        | ok m? =>
          rw [hpk] at h
          simp only [hroot] at h
          exact absurd h (by simp)

/-! ## Monotonicity of the report fields across detector steps -/

theorem frameworkStep_needs (look : String → Option String) (r : Results)
    (e : String × String) (h : r.needsSSR = true) :
    (frameworkStep look r e).needsSSR = true := by
  unfold frameworkStep; split <;> simp [h]

theorem libStep_needs (look : String → Option String) (r : Results)
    (lib : String) (h : r.needsSSR = true) : (libStep look r lib).needsSSR = true := by
  unfold libStep; dsimp only; split <;> simp [h]

theorem serverStep_needs (look : String → Option String) (r : Results)
    (pkg : String) (h : r.needsSSR = true) : (serverStep look r pkg).needsSSR = true := by
  unfold serverStep; split <;> simp [h]

theorem configStep_needs (hf : String → Bool) (r : Results)
    (e : String × String) (h : r.needsSSR = true) : (configStep hf r e).needsSSR = true := by
  unfold configStep; split <;> simp [h]

theorem dirStep_needs (de sf : String → Bool) (r : Results)
    (d : String × String) (h : r.needsSSR = true) : (dirStep de sf r d).needsSSR = true := by
  unfold dirStep
  split
  · split
    · split <;> simp [h]
    · simp [h]
  · simp [h]

theorem patBump_needs (r : Results) : (patBump r).needsSSR = true := by
  simp [patBump]

theorem threshold_needs (r : Results) (h : r.needsSSR = true) :
    (threshold r).needsSSR = true := by
  unfold threshold; split <;> simp [h]

theorem foldl_needs {α : Type} (f : Results → α → Results)
    (hf : ∀ r a, r.needsSSR = true → (f r a).needsSSR = true)
    (l : List α) (r : Results) (h : r.needsSSR = true) :
    (l.foldl f r).needsSSR = true := by
  induction l generalizing r with
  | nil => simpa using h
  | cons a t ih => simpa using ih (f r a) (hf r a h)

theorem frameworkStep_conf (look : String → Option String) (r : Results)
    (e : String × String) : r.confidence ≤ (frameworkStep look r e).confidence := by
  unfold frameworkStep; split <;> simp

theorem libStep_conf (look : String → Option String) (r : Results)
    (lib : String) : r.confidence ≤ (libStep look r lib).confidence := by
  unfold libStep; dsimp only; split <;> simp

theorem serverStep_conf (look : String → Option String) (r : Results)
    (pkg : String) : r.confidence ≤ (serverStep look r pkg).confidence := by
  unfold serverStep; split <;> simp

theorem configStep_conf (hf : String → Bool) (r : Results)
    (e : String × String) : r.confidence ≤ (configStep hf r e).confidence := by
  unfold configStep; split <;> simp

theorem dirStep_conf (de sf : String → Bool) (r : Results)
    (d : String × String) : r.confidence ≤ (dirStep de sf r d).confidence := by
  unfold dirStep
  split
  · split
    · split
      · simp
        omega
      · simp
    · simp
  · simp

theorem foldl_conf {α : Type} (f : Results → α → Results)
    (hf : ∀ r a, r.confidence ≤ (f r a).confidence)
    (l : List α) (r : Results) : r.confidence ≤ (l.foldl f r).confidence := by
  induction l generalizing r with
  | nil => simp
  | cons a t ih => simpa using le_trans (hf r a) (ih (f r a))

theorem frameworkStep_evmem (look : String → Option String) (r : Results)
    (e : String × String) (x : String) (h : x ∈ r.evidence) :
    x ∈ (frameworkStep look r e).evidence := by
  unfold frameworkStep; split <;> simp [h]

theorem libStep_evmem (look : String → Option String) (r : Results)
    (lib : String) (x : String) (h : x ∈ r.evidence) :
    x ∈ (libStep look r lib).evidence := by
  unfold libStep; dsimp only; split <;> simp [h]

theorem serverStep_evmem (look : String → Option String) (r : Results)
    (pkg : String) (x : String) (h : x ∈ r.evidence) :
    x ∈ (serverStep look r pkg).evidence := by
  unfold serverStep; split <;> simp [h]

theorem configStep_evmem (hf : String → Bool) (r : Results)
    (e : String × String) (x : String) (h : x ∈ r.evidence) :
    x ∈ (configStep hf r e).evidence := by
  unfold configStep; split <;> simp [h]

theorem dirStep_evmem (de sf : String → Bool) (r : Results)
    (d : String × String) (x : String) (h : x ∈ r.evidence) :
    x ∈ (dirStep de sf r d).evidence := by
  unfold dirStep
  split
  · split
    · split <;> simp [h]
    · simp [h]
  · simp [h]

theorem foldl_evmem {α : Type} (f : Results → α → Results)
    (hf : ∀ r a x, x ∈ r.evidence → x ∈ (f r a).evidence)
    (l : List α) (r : Results) (x : String) (h : x ∈ r.evidence) :
    x ∈ (l.foldl f r).evidence := by
  induction l generalizing r with
  | nil => simpa using h
  | cons a t ih => simpa using ih (f r a) (hf r a x h)

/-! ## Claim C1: confidence above 30 forces the verdict -/

/-- C1. For every report returned by `detectSSR`, `confidence > 30` implies
`needsSSR = true`: every normal exit of the analysis passes through the final
`if (confidence > 30) needsSSR = true` rule, and every caught-error exit
carries confidence 0. -/
theorem confidence_over30_forces_needsSSR (w : World) (input : String)
    (h : 30 < (detectSSR w input).confidence) :
    (detectSSR w input).needsSSR = true := by
  cases hb : detectSSRBody w input with
  | ok r =>
    have hd : detectSSR w input = r := by unfold detectSSR; rw [hb]
    rw [hd] at h ⊢
    rcases detectSSRBody_ok_shape w input r hb with h0 | ⟨r5, h5⟩
    · rw [h0] at h; exact absurd h (by simp [initResults])
    · rw [h5] at h ⊢
      unfold threshold at h ⊢
      by_cases hc : r5.confidence > 30
      · simp [hc]
      · rw [if_neg hc] at h; omega
  | error pr =>
    obtain ⟨r, msg⟩ := pr
    have hd : detectSSR w input =
        { r with evidence := r.evidence ++ [errLine msg] } := by
      unfold detectSSR; rw [hb]
    rw [hd] at h
    have h0 := detectSSRBody_error_conf w input r msg hb
    simp only at h
    omega

/-! ## Concrete worlds used by witnesses and counterexamples -/

/-- A `JSON.parse` model: a lookup table of well-formed manifest texts; any
other text throws with the given message. -/
def mkParse (tbl : List (String × Manifest)) (err : String) :
    String → Except String Manifest :=
  fun s =>
    match tbl.lookup s with
    | some m => Except.ok m
    | none => Except.error err

/-- A local-mode world: empty remote collaborators. -/
def mkLocalWorld (root : Option FSNode) (parse : String → Except String Manifest) : World :=
  { localRoot := root
    remoteTree := []
    remotePkg := none
    remoteSearchSSR := fun _ => false
    remoteSearchPat := fun _ => false
    parse := parse }

/-- `package.json` text declaring `next` and `nuxt` as dependencies. -/
def pkgNextNuxt : String :=
  "\x7b\"dependencies\":\x7b\"next\":\"13.0.0\",\"nuxt\":\"2.17.0\"\x7d\x7d"

/-- The parse of `pkgNextNuxt`. -/
def mNextNuxt : Manifest :=
  { dependencies := [("next", "13.0.0"), ("nuxt", "2.17.0")], devDependencies := [] }

/-- A project directory whose manifest declares both `next` and `nuxt`. -/
def wNextNuxt : World :=
  mkLocalWorld (some (FSNode.dir [("package.json", FSNode.file pkgNextNuxt)]))
    (mkParse [(pkgNextNuxt, mNextNuxt)] "Unexpected token")

theorem wNextNuxt_eval :
    detectSSR wNextNuxt "myproject" =
      { needsSSR := true
        evidence := ["Found SSR framework: Next.js (next)",
                     "Found SSR framework: Nuxt.js (nuxt)"]
        frameworkDetected := some "Nuxt.js"
        confidence := 60 } := by
  simp +decide [detectSSR, detectSSRBody, isGithubUrl, githubFind, githubMatchAt, isPreOf,
    localBody, localPkgParse, navigate, childNode, wNextNuxt, mkLocalWorld, mkParse,
    pkgNextNuxt, mNextNuxt, runManifest, mergedVal, truthyDep, initResults,
    ssrFrameworksTable, ssrLibrariesTable, serverPackagesTable,
    frameworkStep, libStep, serverStep, configFilesTable, configStep,
    localHasFile, splitSlash, splitSlashAux, ssrDirectoriesTable, dirStep,
    localIsDir, localSSRFuncs, searchForPattern, getAllFileContents, extOk,
    extname, lastDotIdx, codeExts, strIncludes, containsSub, threshold, patBump,
    List.lookup]

/-- C1 witness: a concrete analysis whose confidence exceeds 30 and whose
verdict is therefore forced true. -/
theorem confidence_over30_forces_needsSSR_witness :
    30 < (detectSSR wNextNuxt "myproject").confidence ∧
      (detectSSR wNextNuxt "myproject").needsSSR = true :=
  ⟨by rw [wNextNuxt_eval]; decide, confidence_over30_forces_needsSSR wNextNuxt "myproject"
    (by rw [wNextNuxt_eval]; decide)⟩

/-! ## Claim C6: the top-level catch -/

/-- C6. `detectSSR` never propagates an error: whenever the try block exits
abnormally with partial report `r` and message `msg`, the analysis still
returns a report, namely `r` as accumulated so far with the single evidence
line `Error analyzing repository: {msg}` appended. -/
theorem detectSSR_top_catch (w : World) (input : String) (r : Results)
    (msg : String) (h : detectSSRBody w input = Except.error (r, msg)) :
    detectSSR w input = { r with evidence := r.evidence ++ [errLine msg] } := by
  unfold detectSSR; rw [h]

/-- A world whose analysis root does not exist on disk. -/
def wErrCatch : World := mkLocalWorld none (mkParse [] "Unexpected token")

/-- C6 witness: a concrete aborted analysis returns the partial report plus
the error evidence line. -/
theorem detectSSR_top_catch_witness :
    detectSSRBody wErrCatch "gone" = Except.error (initResults, enoentMsg "gone") ∧
      detectSSR wErrCatch "gone" =
        { initResults with evidence := initResults.evidence ++ [errLine (enoentMsg "gone")] } :=
  ⟨by unfold detectSSRBody
      rw [if_neg (by decide : ¬(isGithubUrl "gone" = true))]
      exact localBody_none wErrCatch "gone" rfl,
   detectSSR_top_catch wErrCatch "gone" initResults (enoentMsg "gone")
     (by unfold detectSSRBody
         rw [if_neg (by decide : ¬(isGithubUrl "gone" = true))]
         exact localBody_none wErrCatch "gone" rfl)⟩

/-! ## Claim C10: a missing local path yields the zero report -/

/-- C10. For every input classified as local whose path does not exist on
disk, `detectSSR` does not throw: it returns a report with `needsSSR` false,
`frameworkDetected` null and confidence 0 (every detector finds nothing, and
the final `readdirSync` ENOENT is absorbed by the top-level catch). -/
theorem missing_path_zero_report (w : World) (input : String)
    (hg : isGithubUrl input = false) (h : w.localRoot = none) :
    (detectSSR w input).needsSSR = false ∧
      (detectSSR w input).frameworkDetected = none ∧
      (detectSSR w input).confidence = 0 := by
  have hb : detectSSRBody w input = Except.error (initResults, enoentMsg input) := by
    unfold detectSSRBody
    rw [if_neg (by simp [hg])]
    exact localBody_none w input h
  unfold detectSSR
  rw [hb]
  simp [initResults]

/-- A nonexistent project directory. -/
def wMissing : World := mkLocalWorld none (mkParse [] "Unexpected token")

/-- C10 witness: a concrete nonexistent local path yields the zero report. -/
theorem missing_path_zero_report_witness :
    isGithubUrl "no-such-dir" = false ∧ wMissing.localRoot = none ∧
      (detectSSR wMissing "no-such-dir").needsSSR = false ∧
      (detectSSR wMissing "no-such-dir").frameworkDetected = none ∧
      (detectSSR wMissing "no-such-dir").confidence = 0 :=
  ⟨by decide, rfl,
   missing_path_zero_report wMissing "no-such-dir" (by decide) rfl⟩

/-! ## Claim C2: framework write policy -/

theorem configStep_fw_some (hf : String → Bool) (r : Results)
    (e : String × String) (fw : String) (h : r.frameworkDetected = some fw) :
    (configStep hf r e).frameworkDetected = some fw := by
  unfold configStep; split <;> simp [h]

theorem foldl_configStep_fw_some (hf : String → Bool)
    (l : List (String × String)) (r : Results) (fw : String)
    (h : r.frameworkDetected = some fw) :
    (l.foldl (configStep hf) r).frameworkDetected = some fw := by
  induction l generalizing r with
  | nil => simpa using h
  | cons a t ih => simpa using ih (configStep hf r a) (configStep_fw_some hf r a fw h)

/-- C2 counterexample: a manifest declaring both `next` and `nuxt`. The
evidence shows the Next.js finding came first, yet the returned framework is
the later finding's `Nuxt.js`, because the manifest loop assigns
`results.frameworkDetected = framework` unconditionally. -/
theorem framework_overwrite_cex :
    (detectSSR wNextNuxt "myproject").evidence =
      ["Found SSR framework: Next.js (next)",
       "Found SSR framework: Nuxt.js (nuxt)"] ∧
      (detectSSR wNextNuxt "myproject").frameworkDetected = some "Nuxt.js" ∧
      (detectSSR wNextNuxt "myproject").frameworkDetected ≠ some "Next.js" := by
  rw [wNextNuxt_eval]
  exact ⟨rfl, rfl, by decide⟩

/-- C2 (amended). The framework label is last-write-wins inside the manifest
dependency detector (each firing entry overwrites it unconditionally) and
set-if-absent in the configuration-file detector (a non-null label is never
overwritten there); no other step writes the label. Hence when two known
SSR-framework packages are present in one manifest, the later table entry's
framework is the one returned. -/
theorem framework_write_policy
    (look : String → Option String) (hf de sf : String → Bool)
    (r : Results) (e d : String × String) (lib pkg fw : String)
    (hfire : truthyDep (look e.1) = true)
    (hset : r.frameworkDetected = some fw) :
    (frameworkStep look r e).frameworkDetected = some e.2 ∧
      (configStep hf r e).frameworkDetected = some fw ∧
      (libStep look r lib).frameworkDetected = r.frameworkDetected ∧
      (serverStep look r pkg).frameworkDetected = r.frameworkDetected ∧
      (dirStep de sf r d).frameworkDetected = r.frameworkDetected ∧
      (patBump r).frameworkDetected = r.frameworkDetected ∧
      (threshold r).frameworkDetected = r.frameworkDetected ∧
      ∀ l : List (String × String),
        (l.foldl (configStep hf) r).frameworkDetected = some fw := by
  refine ⟨?_, configStep_fw_some hf r e fw hset, ?_, ?_, ?_, ?_, ?_,
    fun l => foldl_configStep_fw_some hf l r fw hset⟩
  · simp [frameworkStep, hfire]
  · unfold libStep; dsimp only; split <;> simp
  · unfold serverStep; split <;> simp
  · unfold dirStep
    split
    · split
      · split <;> simp
      · simp
    · simp
  · simp [patBump]
  · unfold threshold; split <;> simp

/-- A report with a framework label already set, for the C2 witness. -/
def rPrev : Results :=
  { needsSSR := false, evidence := [], frameworkDetected := some "Gatsby", confidence := 0 }

/-- C2 witness: the write policy instantiated at a concrete firing entry and
a concrete pre-set label. -/
theorem framework_write_policy_witness :
    truthyDep (mergedVal mNextNuxt "next") = true ∧
      rPrev.frameworkDetected = some "Gatsby" ∧
      (frameworkStep (mergedVal mNextNuxt) rPrev ("next", "Next.js")).frameworkDetected = some "Next.js" ∧
      (configStep (fun _ => true) rPrev ("next.config.js", "Next.js")).frameworkDetected = some "Gatsby" ∧
      (libStep (mergedVal mNextNuxt) rPrev "svelte/server").frameworkDetected = rPrev.frameworkDetected ∧
      (serverStep (mergedVal mNextNuxt) rPrev "express").frameworkDetected = rPrev.frameworkDetected ∧
      (dirStep (fun _ => true) (fun _ => true) rPrev ("pages", "Next.js")).frameworkDetected = rPrev.frameworkDetected ∧
      (patBump rPrev).frameworkDetected = rPrev.frameworkDetected ∧
      (threshold rPrev).frameworkDetected = rPrev.frameworkDetected ∧
      (configFilesTable.foldl (configStep (fun _ => true)) rPrev).frameworkDetected = some "Gatsby" :=
  let T := framework_write_policy (mergedVal mNextNuxt) (fun _ => true) (fun _ => true)
    (fun _ => true) rPrev ("next", "Next.js") ("pages", "Next.js")
    "svelte/server" "express" "Gatsby" (by decide) rfl
  ⟨by decide, rfl, T.1, T.2.1, T.2.2.1, T.2.2.2.1, T.2.2.2.2.1, T.2.2.2.2.2.1,
   T.2.2.2.2.2.2.1, T.2.2.2.2.2.2.2 configFilesTable⟩

/-! ## Claim C3: manifest dependency detection -/

theorem patBump_evmem (r : Results) (x : String) (h : x ∈ r.evidence) :
    x ∈ (patBump r).evidence := by
  simp [patBump, h]

theorem patBump_conf (r : Results) : r.confidence ≤ (patBump r).confidence := by
  simp [patBump]

theorem threshold_ev (r : Results) : (threshold r).evidence = r.evidence := by
  unfold threshold; split <;> rfl

theorem threshold_conf (r : Results) : (threshold r).confidence = r.confidence := by
  unfold threshold; split <;> rfl

theorem threshold_fwd (r : Results) :
    (threshold r).frameworkDetected = r.frameworkDetected := by
  unfold threshold; split <;> rfl

theorem libStep_fwd (look : String → Option String) (r : Results) (lib : String) :
    (libStep look r lib).frameworkDetected = r.frameworkDetected := by
  unfold libStep; dsimp only; split <;> rfl

theorem serverStep_fwd (look : String → Option String) (r : Results) (pkg : String) :
    (serverStep look r pkg).frameworkDetected = r.frameworkDetected := by
  unfold serverStep; split <;> rfl

theorem dirStep_fwd (de sf : String → Bool) (r : Results) (d : String × String) :
    (dirStep de sf r d).frameworkDetected = r.frameworkDetected := by
  unfold dirStep
  split
  · split
    · split <;> rfl
    · rfl
  · rfl

theorem patBump_fwd (r : Results) :
    (patBump r).frameworkDetected = r.frameworkDetected := rfl

theorem frameworkStep_fw_isSome (look : String → Option String) (r : Results)
    (e : String × String) (h : r.frameworkDetected.isSome = true) :
    (frameworkStep look r e).frameworkDetected.isSome = true := by
  unfold frameworkStep; split <;> simp [h]

theorem configStep_fw_isSome (hf : String → Bool) (r : Results)
    (e : String × String) (h : r.frameworkDetected.isSome = true) :
    (configStep hf r e).frameworkDetected.isSome = true := by
  obtain ⟨fw, hfw⟩ := Option.isSome_iff_exists.mp h
  simp [configStep_fw_some hf r e fw hfw]

theorem foldl_fw_isSome {α : Type} (f : Results → α → Results)
    (hf : ∀ r a, r.frameworkDetected.isSome = true →
      (f r a).frameworkDetected.isSome = true)
    (l : List α) (r : Results) (h : r.frameworkDetected.isSome = true) :
    (l.foldl f r).frameworkDetected.isSome = true := by
  induction l generalizing r with
  | nil => simpa using h
  | cons a t ih => simpa using ih (f r a) (hf r a h)

/-- Folding the `ssrFrameworks` loop over a list containing a firing entry
`(k, f)` records the evidence line, adds at least 30 to confidence, forces
the verdict and leaves a non-null framework label. -/
theorem frameworkFold_fire (look : String → Option String)
    (l : List (String × String)) (r : Results) (k f : String)
    (hmem : (k, f) ∈ l) (hfire : truthyDep (look k) = true) :
    ("Found SSR framework: " ++ f ++ " (" ++ k ++ ")") ∈
        (l.foldl (frameworkStep look) r).evidence ∧
      r.confidence + 30 ≤ (l.foldl (frameworkStep look) r).confidence ∧
      (l.foldl (frameworkStep look) r).needsSSR = true ∧
      (l.foldl (frameworkStep look) r).frameworkDetected.isSome = true := by
  induction l generalizing r with
  | nil => exact absurd hmem (by simp)
  | cons a t ih =>
    rcases List.mem_cons.mp hmem with ha | ht
    · subst ha
      have hstep : frameworkStep look r (k, f) =
          { r with
            evidence := r.evidence ++ ["Found SSR framework: " ++ f ++ " (" ++ k ++ ")"]
            frameworkDetected := some f
            confidence := r.confidence + 30
            needsSSR := true } := by
        simp [frameworkStep, hfire]
      rw [List.foldl_cons, hstep]
      refine ⟨foldl_evmem _ (frameworkStep_evmem look) t _ _ (by simp), ?_, ?_, ?_⟩
      · have := foldl_conf _ (frameworkStep_conf look) t
          { r with
            evidence := r.evidence ++ ["Found SSR framework: " ++ f ++ " (" ++ k ++ ")"]
            frameworkDetected := some f
            confidence := r.confidence + 30
            needsSSR := true }
        simpa using this
      · exact foldl_needs _ (frameworkStep_needs look) t _ rfl
      · exact foldl_fw_isSome _ (frameworkStep_fw_isSome look) t _ rfl
    · rw [List.foldl_cons]
      have h3 := ih (frameworkStep look r a) ht
      refine ⟨h3.1, le_trans ?_ h3.2.1, h3.2.2⟩
      have := frameworkStep_conf look r a
      omega

theorem localPkgParse_ok_some_root (w : World) (m : Manifest)
    (h : localPkgParse w = Except.ok (some m)) :
    ∃ es, w.localRoot = some (FSNode.dir es) := by
  unfold localPkgParse at h
  cases hroot : w.localRoot with
  | none => rw [hroot, navigate_none] at h; exact absurd h (by simp)
  | some node =>
    cases node with
    | file c =>
      rw [hroot, navigate_file_nonempty c _ (by simp)] at h
      exact absurd h (by simp)
    | dir es => exact ⟨es, rfl⟩

/-- The local-mode analysis as a composition of the embedded detector stages,
for a world whose root is a directory and whose manifest step succeeded. -/
theorem detectSSR_local_eq (w : World) (input : String) (m? : Option Manifest)
    (es : List (String × FSNode))
    (hg : isGithubUrl input = false)
    (hpk : localPkgParse w = Except.ok m?)
    (hroot : w.localRoot = some (FSNode.dir es)) :
    detectSSR w input =
      threshold
        (if searchForPattern es "renderToString" then
          patBump
            (ssrDirectoriesTable.foldl (dirStep (localIsDir w) (localSSRFuncs w))
              (configFilesTable.foldl (configStep (localHasFile w))
                (runManifest m? initResults)))
        else
          ssrDirectoriesTable.foldl (dirStep (localIsDir w) (localSSRFuncs w))
            (configFilesTable.foldl (configStep (localHasFile w))
              (runManifest m? initResults))) := by
  unfold detectSSR detectSSRBody
  rw [if_neg (by simp [hg])]
  unfold localBody
  rw [hpk, hroot]

/-- The whole manifest block fired by a truthy known-framework key: evidence,
at least +30 confidence, forced verdict, non-null framework label. -/
theorem runManifest_fire (m : Manifest) (r : Results) (k f v : String)
    (hmem : (k, f) ∈ ssrFrameworksTable)
    (hval : mergedVal m k = some v) (hv : v ≠ "") :
    ("Found SSR framework: " ++ f ++ " (" ++ k ++ ")") ∈
        (runManifest (some m) r).evidence ∧
      r.confidence + 30 ≤ (runManifest (some m) r).confidence ∧
      (runManifest (some m) r).needsSSR = true ∧
      (runManifest (some m) r).frameworkDetected.isSome = true := by
  have hfire : truthyDep (mergedVal m k) = true := by simp [truthyDep, hval, hv]
  unfold runManifest
  simp only
  have h1 := frameworkFold_fire (mergedVal m) ssrFrameworksTable r k f hmem hfire
  set rA := ssrFrameworksTable.foldl (frameworkStep (mergedVal m)) r with hA
  set rB := ssrLibrariesTable.foldl (libStep (mergedVal m)) rA with hB
  have hBev : ("Found SSR framework: " ++ f ++ " (" ++ k ++ ")") ∈ rB.evidence :=
    foldl_evmem _ (libStep_evmem (mergedVal m)) _ _ _ h1.1
  have hBconf : rA.confidence ≤ rB.confidence :=
    foldl_conf _ (libStep_conf (mergedVal m)) _ _
  have hBneeds : rB.needsSSR = true :=
    foldl_needs _ (libStep_needs (mergedVal m)) _ _ h1.2.2.1
  have hBfw : rB.frameworkDetected.isSome = true :=
    foldl_fw_isSome _ (fun r a h => by rw [libStep_fwd]; exact h) _ _ h1.2.2.2
  refine ⟨foldl_evmem _ (serverStep_evmem (mergedVal m)) _ _ _ hBev, ?_,
    foldl_needs _ (serverStep_needs (mergedVal m)) _ _ hBneeds,
    foldl_fw_isSome _ (fun r a h => by rw [serverStep_fwd]; exact h) _ _ hBfw⟩
  have hCconf : rB.confidence ≤
      (serverPackagesTable.foldl (serverStep (mergedVal m)) rB).confidence :=
    foldl_conf _ (serverStep_conf (mergedVal m)) _ _
  have := h1.2.1
  omega

/-- `package.json` text declaring only `next` as a dependency. -/
def pkgNext : String :=
  "\x7b\"dependencies\":\x7b\"next\":\"13.0.0\"\x7d\x7d"

/-- The parse of `pkgNext`. -/
def mNext : Manifest :=
  { dependencies := [("next", "13.0.0")], devDependencies := [] }

/-- A local project whose manifest declares `next` version `13.0.0`. -/
def wNextOnly : World :=
  mkLocalWorld (some (FSNode.dir [("package.json", FSNode.file pkgNext)]))
    (mkParse [(pkgNext, mNext)] "Unexpected token")

theorem wNextOnly_eval :
    detectSSR wNextOnly "myapp" =
      { needsSSR := true
        evidence := ["Found SSR framework: Next.js (next)"]
        frameworkDetected := some "Next.js"
        confidence := 30 } := by
  simp +decide [detectSSR, detectSSRBody, isGithubUrl, githubFind, githubMatchAt, isPreOf,
    localBody, localPkgParse, navigate, childNode, wNextOnly, mkLocalWorld, mkParse,
    pkgNext, mNext, runManifest, mergedVal, truthyDep, initResults,
    ssrFrameworksTable, ssrLibrariesTable, serverPackagesTable,
    frameworkStep, libStep, serverStep, configFilesTable, configStep,
    localHasFile, splitSlash, splitSlashAux, ssrDirectoriesTable, dirStep,
    localIsDir, localSSRFuncs, searchForPattern, getAllFileContents, extOk,
    extname, lastDotIdx, codeExts, strIncludes, containsSub, threshold, patBump,
    List.lookup]

/-- C3 (amended). For every local world whose manifest parse succeeded, every
known SSR-framework table entry whose key has a truthy (non-empty) version
string in the merged dependency map yields the evidence line
`Found SSR framework: {framework} ({package})`, at least 30 confidence, a
forced `needsSSR` and a non-null framework label; in particular the
`"next": "13.0.0"` scenario yields exactly that line, confidence 30,
`needsSSR` true and framework `Next.js`. A key that is present but mapped to
the empty string is falsy and does not fire. -/
theorem manifest_truthy_key_detection (w : World) (input : String) (m : Manifest)
    (k f v : String)
    (hg : isGithubUrl input = false)
    (hpk : localPkgParse w = Except.ok (some m))
    (hmem : (k, f) ∈ ssrFrameworksTable)
    (hval : mergedVal m k = some v) (hv : v ≠ "") :
    (("Found SSR framework: " ++ f ++ " (" ++ k ++ ")") ∈ (detectSSR w input).evidence ∧
        30 ≤ (detectSSR w input).confidence ∧
        (detectSSR w input).needsSSR = true ∧
        (detectSSR w input).frameworkDetected ≠ none) ∧
      detectSSR wNextOnly "myapp" =
        { needsSSR := true
          evidence := ["Found SSR framework: Next.js (next)"]
          frameworkDetected := some "Next.js"
          confidence := 30 } := by
  refine ⟨?_, wNextOnly_eval⟩
  obtain ⟨es, hroot⟩ := localPkgParse_ok_some_root w m hpk
  rw [detectSSR_local_eq w input (some m) es hg hpk hroot]
  have h1 := runManifest_fire m initResults k f v hmem hval hv
  set r1 := runManifest (some m) initResults with hr1
  set r3 := configFilesTable.foldl (configStep (localHasFile w)) r1 with hr3
  set r4 := ssrDirectoriesTable.foldl (dirStep (localIsDir w) (localSSRFuncs w)) r3 with hr4
  have h3ev : ("Found SSR framework: " ++ f ++ " (" ++ k ++ ")") ∈ r3.evidence :=
    foldl_evmem _ (configStep_evmem _) _ _ _ h1.1
  have h3conf : r1.confidence ≤ r3.confidence := foldl_conf _ (configStep_conf _) _ _
  have h3needs : r3.needsSSR = true := foldl_needs _ (configStep_needs _) _ _ h1.2.2.1
  have h3fw : r3.frameworkDetected.isSome = true :=
    foldl_fw_isSome _ (configStep_fw_isSome _) _ _ h1.2.2.2
  have h4ev : ("Found SSR framework: " ++ f ++ " (" ++ k ++ ")") ∈ r4.evidence :=
    foldl_evmem _ (dirStep_evmem _ _) _ _ _ h3ev
  have h4conf : r3.confidence ≤ r4.confidence := foldl_conf _ (dirStep_conf _ _) _ _
  have h4needs : r4.needsSSR = true := foldl_needs _ (dirStep_needs _ _) _ _ h3needs
  have h4fw : r4.frameworkDetected.isSome = true :=
    foldl_fw_isSome _ (fun r a h => by rw [dirStep_fwd]; exact h) _ _ h3fw
  have hinit : initResults.confidence = 0 := rfl
  by_cases hs : searchForPattern es "renderToString" = true
  · rw [if_pos hs]
    refine ⟨?_, ?_, ?_, ?_⟩
    · rw [threshold_ev]; exact patBump_evmem _ _ h4ev
    · rw [threshold_conf]
      have := patBump_conf r4
      have := h1.2.1
      omega
    · exact threshold_needs _ (by simp [patBump, h4needs])
    · rw [threshold_fwd, patBump_fwd]
      exact Option.isSome_iff_ne_none.mp h4fw
  · rw [if_neg hs]
    refine ⟨?_, ?_, ?_, ?_⟩
    · rw [threshold_ev]; exact h4ev
    · rw [threshold_conf]
      have := h1.2.1
      omega
    · exact threshold_needs _ h4needs
    · rw [threshold_fwd]
      exact Option.isSome_iff_ne_none.mp h4fw

/-- `package.json` text whose `next` entry is the empty string. -/
def pkgEmptyVer : String :=
  "\x7b\"dependencies\":\x7b\"next\":\"\"\x7d\x7d"

/-- The parse of `pkgEmptyVer`: the key `next` is present, its value empty. -/
def mEmptyVer : Manifest :=
  { dependencies := [("next", "")], devDependencies := [] }

/-- A local project whose manifest maps `next` to the empty string. -/
def wEmptyVer : World :=
  mkLocalWorld (some (FSNode.dir [("package.json", FSNode.file pkgEmptyVer)]))
    (mkParse [(pkgEmptyVer, mEmptyVer)] "Unexpected token")

/-- C3 counterexample: the key `next` is present in the merged dependency map
but mapped to the empty string, a falsy value in `if (allDependencies[dep])`,
so nothing fires: no evidence, confidence 0, no framework, verdict false. -/
theorem manifest_key_not_version_blind_cex :
    mergedVal mEmptyVer "next" = some "" ∧
      detectSSR wEmptyVer "emptyver" =
        { needsSSR := false, evidence := [], frameworkDetected := none, confidence := 0 } := by
  constructor
  · decide
  · simp +decide [detectSSR, detectSSRBody, isGithubUrl, githubFind, githubMatchAt, isPreOf,
      localBody, localPkgParse, navigate, childNode, wEmptyVer, mkLocalWorld, mkParse,
      pkgEmptyVer, mEmptyVer, runManifest, mergedVal, truthyDep, initResults,
      ssrFrameworksTable, ssrLibrariesTable, serverPackagesTable,
      frameworkStep, libStep, serverStep, configFilesTable, configStep,
      localHasFile, splitSlash, splitSlashAux, ssrDirectoriesTable, dirStep,
      localIsDir, localSSRFuncs, searchForPattern, getAllFileContents, extOk,
      extname, lastDotIdx, codeExts, strIncludes, containsSub, threshold, patBump,
      List.lookup]

/-- C3 witness: the amended detection theorem applied to the `next`/`13.0.0`
scenario world. -/
theorem manifest_truthy_key_detection_witness :
    (isGithubUrl "myapp" = false ∧
        localPkgParse wNextOnly = Except.ok (some mNext) ∧
        ("next", "Next.js") ∈ ssrFrameworksTable ∧
        mergedVal mNext "next" = some "13.0.0") ∧
      ("Found SSR framework: " ++ "Next.js" ++ " (" ++ "next" ++ ")") ∈
          (detectSSR wNextOnly "myapp").evidence ∧
        30 ≤ (detectSSR wNextOnly "myapp").confidence ∧
        (detectSSR wNextOnly "myapp").needsSSR = true ∧
        (detectSSR wNextOnly "myapp").frameworkDetected ≠ none :=
  ⟨⟨by decide, by simp [localPkgParse, wNextOnly, mkLocalWorld, navigate, childNode,
        mkParse, List.lookup], by decide, by decide⟩,
   (manifest_truthy_key_detection wNextOnly "myapp" mNext "next" "Next.js" "13.0.0"
     (by decide)
     (by simp [localPkgParse, wNextOnly, mkLocalWorld, navigate, childNode,
        mkParse, List.lookup])
     (by decide) (by decide) (by decide)).1⟩

/-! ## Claim C5: malformed package.json -/

/-- C5 (amended). A malformed `package.json` is not fatal to the caller —
`detectSSR` still returns a report — but the `JSON.parse` failure propagates
to the top-level catch: the subsequent detectors do not run, and the returned
report is the untouched initial one with only the single error evidence line
appended. -/
theorem malformed_manifest_aborts (w : World) (input c e : String)
    (hg : isGithubUrl input = false)
    (hnav : navigate w.localRoot ["package.json"] = some (FSNode.file c))
    (hparse : w.parse c = Except.error e) :
    detectSSR w input = { initResults with evidence := [errLine e] } := by
  have hpk : localPkgParse w = Except.error e := by
    unfold localPkgParse; rw [hnav]; simp [hparse]
  unfold detectSSR detectSSRBody
  rw [if_neg (by simp [hg])]
  unfold localBody
  rw [hpk]
  simp [initResults]

/-- Ill-formed `package.json` text. -/
def pkgBad : String := "\x7bbad"

/-- A local project with a malformed `package.json` next to a
`next.config.js` that the configuration-file detector would have found. -/
def wBadJson : World :=
  mkLocalWorld
    (some (FSNode.dir
      [("package.json", FSNode.file pkgBad),
       ("next.config.js", FSNode.file "module.exports = \x7b\x7d")]))
    (mkParse [] "Unexpected token b in JSON at position 1")

/-- C5 counterexample: with a malformed `package.json`, the analysis aborts
before the configuration-file detector, even though `next.config.js` exists:
the report carries only the error line and confidence 0, and the config
evidence line the claim promises is absent. -/
theorem malformed_manifest_cex :
    localHasFile wBadJson "next.config.js" = true ∧
      detectSSR wBadJson "badproj" =
        { needsSSR := false
          evidence := ["Error analyzing repository: Unexpected token b in JSON at position 1"]
          frameworkDetected := none
          confidence := 0 } ∧
      "Found configuration file for Next.js: next.config.js" ∉
        (detectSSR wBadJson "badproj").evidence := by
  have he : detectSSR wBadJson "badproj" =
      { needsSSR := false
        evidence := ["Error analyzing repository: Unexpected token b in JSON at position 1"]
        frameworkDetected := none
        confidence := 0 } := by
    simp +decide [detectSSR, detectSSRBody, isGithubUrl, githubFind, githubMatchAt, isPreOf,
      localBody, localPkgParse, navigate, childNode, wBadJson, mkLocalWorld, mkParse,
      pkgBad, initResults, errLine, List.lookup]
  refine ⟨by decide, he, by rw [he]; decide⟩

/-- C5 witness: the amended abort theorem applied to the malformed-manifest
world. -/
theorem malformed_manifest_aborts_witness :
    (isGithubUrl "badproj" = false ∧
        navigate wBadJson.localRoot ["package.json"] = some (FSNode.file pkgBad) ∧
        wBadJson.parse pkgBad =
          Except.error "Unexpected token b in JSON at position 1") ∧
      detectSSR wBadJson "badproj" =
        { initResults with
            evidence := [errLine "Unexpected token b in JSON at position 1"] } :=
  ⟨⟨by decide, rfl, rfl⟩,
   malformed_manifest_aborts wBadJson "badproj" pkgBad
     "Unexpected token b in JSON at position 1" (by decide) rfl rfl⟩

/-! ## Claim C8: the verdict is monotone -/

theorem runManifest_needs (m? : Option Manifest) (r : Results)
    (h : r.needsSSR = true) : (runManifest m? r).needsSSR = true := by
  cases m? with
  | none => simpa [runManifest] using h
  | some m =>
    unfold runManifest
    simp only
    exact foldl_needs _ (serverStep_needs _) _ _
      (foldl_needs _ (libStep_needs _) _ _
        (foldl_needs _ (frameworkStep_needs _) _ _ h))

/-- C8. `needsSSR` is monotone throughout one run: the report starts with it
false, and no step of the pipeline — any detector step, any detector fold,
the `renderToString` bump, the final threshold rule, or the catch's evidence
append — ever resets a true verdict to false. -/
theorem needsSSR_monotone (look : String → Option String) (hf de sf : String → Bool)
    (m? : Option Manifest) (r : Results) (e d : String × String)
    (lib pkg msg : String) (h : r.needsSSR = true) :
    initResults.needsSSR = false ∧
      (frameworkStep look r e).needsSSR = true ∧
      (libStep look r lib).needsSSR = true ∧
      (serverStep look r pkg).needsSSR = true ∧
      (runManifest m? r).needsSSR = true ∧
      (configStep hf r e).needsSSR = true ∧
      (∀ l : List (String × String), (l.foldl (configStep hf) r).needsSSR = true) ∧
      (dirStep de sf r d).needsSSR = true ∧
      (∀ l : List (String × String), (l.foldl (dirStep de sf) r).needsSSR = true) ∧
      (patBump r).needsSSR = true ∧
      (threshold r).needsSSR = true ∧
      ({ r with evidence := r.evidence ++ [errLine msg] }).needsSSR = true :=
  ⟨rfl,
   frameworkStep_needs look r e h,
   libStep_needs look r lib h,
   serverStep_needs look r pkg h,
   runManifest_needs m? r h,
   configStep_needs hf r e h,
   fun l => foldl_needs _ (configStep_needs hf) l r h,
   dirStep_needs de sf r d h,
   fun l => foldl_needs _ (dirStep_needs de sf) l r h,
   patBump_needs r,
   threshold_needs r h,
   h⟩

/-- A report whose verdict has already been forced true, for the C8 witness. -/
def rForced : Results :=
  { needsSSR := true, evidence := ["Found SSR framework: Next.js (next)"]
    frameworkDetected := some "Next.js", confidence := 30 }

/-- C8 witness: monotonicity instantiated at a concrete forced report. -/
theorem needsSSR_monotone_witness :
    rForced.needsSSR = true ∧
      initResults.needsSSR = false ∧
      (frameworkStep (mergedVal mNext) rForced ("nuxt", "Nuxt.js")).needsSSR = true ∧
      (libStep (mergedVal mNext) rForced "svelte/server").needsSSR = true ∧
      (serverStep (mergedVal mNext) rForced "express").needsSSR = true ∧
      (runManifest (some mNext) rForced).needsSSR = true ∧
      (configStep (fun _ => true) rForced ("angular.json", "Angular")).needsSSR = true ∧
      (configFilesTable.foldl (configStep (fun _ => true)) rForced).needsSSR = true ∧
      (dirStep (fun _ => true) (fun _ => false) rForced ("pages", "Next.js")).needsSSR = true ∧
      (ssrDirectoriesTable.foldl (dirStep (fun _ => true) (fun _ => false)) rForced).needsSSR = true ∧
      (patBump rForced).needsSSR = true ∧
      (threshold rForced).needsSSR = true ∧
      ({ rForced with evidence := rForced.evidence ++ [errLine "boom"] }).needsSSR = true :=
  let T := needsSSR_monotone (mergedVal mNext) (fun _ => true) (fun _ => true) (fun _ => false)
    (some mNext) rForced ("nuxt", "Nuxt.js") ("pages", "Next.js")
    "svelte/server" "express" "boom" rfl
  ⟨rfl, T.1, T.2.1, T.2.2.1, T.2.2.2.1, T.2.2.2.2.1, T.2.2.2.2.2.1,
   T.2.2.2.2.2.2.1 configFilesTable, T.2.2.2.2.2.2.2.1,
   T.2.2.2.2.2.2.2.2.1 ssrDirectoriesTable, T.2.2.2.2.2.2.2.2.2.1,
   T.2.2.2.2.2.2.2.2.2.2.1, T.2.2.2.2.2.2.2.2.2.2.2⟩

/-! ## Claim C4: the 100-path cap of the remote walk -/

/-- The `item.name` field of a listing entry. -/
def Entry.name : Entry → String
  | Entry.file n => n
  | Entry.dir n _ => n

set_option maxRecDepth 10000 in
/-- C4 counterexample: a repository whose root listing alone has 101 entries.
Every listed item is pushed before the cap is consulted, so the collection
returns 101 paths — more than 100. -/
theorem buildRepoStructure_cap_cex :
    (buildRepoStructure (List.replicate 101 (Entry.file "a"))).length = 101 ∧
      100 < (buildRepoStructure (List.replicate 101 (Entry.file "a"))).length := by
  have h : (buildRepoStructure (List.replicate 101 (Entry.file "a"))).length = 101 := by
    simp [buildRepoStructure, List.replicate, buildStructAux, itemPath]
  exact ⟨h, by omega⟩

/-- C4 (amended). The 100-path cap gates only the descent: once the
accumulated structure holds at least 100 paths, the walk stops recursing into
subdirectories, but it still appends every entry of the listings already
fetched — so the cap bounds the recursion, not the length of the returned
list. -/
theorem buildStruct_cap_stops_descent (es : List Entry) (path : String)
    (acc : List String) (h : 100 ≤ acc.length) :
    buildStructAux es path acc = acc ++ es.map (fun e => itemPath path e.name) := by
  induction es generalizing acc with
  | nil => simp [buildStructAux]
  | cons e rest ih =>
    cases e with
    | file n =>
      rw [show buildStructAux (Entry.file n :: rest) path acc =
          buildStructAux rest path (acc ++ [itemPath path n]) from by
        simp [buildStructAux]]
      rw [ih (acc ++ [itemPath path n]) (by simp; omega)]
      simp [Entry.name]
    | dir n children =>
      have hlen : ¬ (acc.length + 1 < 100) := by omega
      rw [show buildStructAux (Entry.dir n children :: rest) path acc =
          buildStructAux rest path (acc ++ [itemPath path n]) from by
        simp [buildStructAux, hlen]]
      rw [ih (acc ++ [itemPath path n]) (by simp; omega)]
      simp [Entry.name]

/-- A structure accumulator that has already reached the cap. -/
def accFull : List String := List.replicate 100 "x"

/-- C4 witness: with 100 paths already collected, a directory entry is pushed
but its children are not visited. -/
theorem buildStruct_cap_stops_descent_witness :
    100 ≤ accFull.length ∧
      buildStructAux [Entry.dir "d" [Entry.file "f"]] "" accFull =
        accFull ++ [Entry.dir "d" [Entry.file "f"]].map (fun e => itemPath "" e.name) :=
  ⟨by simp [accFull],
   buildStruct_cap_stops_descent [Entry.dir "d" [Entry.file "f"]] "" accFull
     (by simp [accFull])⟩

/-! ## Claims C7 and C9: the GitHub regex -/

theorem isPreOf_append_self (p rest : List Char) : isPreOf p (p ++ rest) = true := by
  induction p with
  | nil => rfl
  | cons a as ih => simp [isPreOf, ih]

theorem githubFind_cons_ne (x : Char) (rest : List Char) (hx : x ≠ 'g') :
    githubFind (x :: rest) = githubFind rest := by
  have hm : githubMatchAt (x :: rest) = none := by
    unfold githubMatchAt
    rw [if_neg]
    rw [show "github.com/".data = 'g' :: "ithub.com/".data from rfl]
    simp [isPreOf, Ne.symm hx]
  rw [show githubFind (x :: rest) =
      (match githubMatchAt (x :: rest) with
        | some r => some r
        | none => githubFind rest) from rfl, hm]

theorem githubFind_of_matchAt_some (l : List Char) (v : List Char × List Char)
    (h : githubMatchAt l = some v) : githubFind l = some v := by
  cases l with
  | nil =>
    rw [show githubMatchAt ([] : List Char) = none from by decide] at h
    exact Option.noConfusion h
  | cons c rest =>
    rw [show githubFind (c :: rest) =
        (match githubMatchAt (c :: rest) with
          | some r => some r
          | none => githubFind rest) from rfl, h]

theorem githubFind_append_isSome (l1 l2 : List Char)
    (h : (githubMatchAt l2).isSome = true) :
    (githubFind (l1 ++ l2)).isSome = true := by
  induction l1 with
  | nil =>
    cases l2 with
    | nil => exact absurd h (by decide)
    | cons c rest =>
      simp only [List.nil_append]
      unfold githubFind
      cases hm : githubMatchAt (c :: rest) with
      | none => rw [hm] at h; exact absurd h (by decide)
      | some v => simp
  | cons c t ih =>
    simp only [List.cons_append]
    unfold githubFind
    cases hm : githubMatchAt (c :: (t ++ l2)) with
    | none => exact ih
    | some v => simp

theorem takeWhile_ne_slash_all (l : List Char) (h : ∀ c ∈ l, c ≠ '/') :
    l.takeWhile (fun c => c ≠ '/') = l := by
  induction l with
  | nil => rfl
  | cons c t ih =>
    have hc : c ≠ '/' := h c (by simp)
    have ht : ∀ x ∈ t, x ≠ '/' := fun x hx => h x (by simp [hx])
    have iht := ih ht
    simp only [ne_eq, decide_not] at iht ⊢
    simp [List.takeWhile_cons, hc, iht]

theorem takeWhile_append_slash (l1 l2 : List Char) (h : ∀ c ∈ l1, c ≠ '/') :
    (l1 ++ '/' :: l2).takeWhile (fun c => c ≠ '/') = l1 := by
  induction l1 with
  | nil => simp [List.takeWhile_cons]
  | cons c t ih =>
    have hc : c ≠ '/' := h c (by simp)
    have ht : ∀ x ∈ t, x ≠ '/' := fun x hx => h x (by simp [hx])
    have iht := ih ht
    simp only [ne_eq, decide_not] at iht ⊢
    simp [List.takeWhile_cons, hc, iht]

/-- The regex matches at the start of
`github.com/{owner}/{tail}` with group 1 the owner and group 2 the longest
non-slash prefix of the tail. -/
theorem githubMatchAt_at (ow : List Char) (c : Char) (t : List Char)
    (h1 : ow ≠ []) (h2 : ∀ x ∈ ow, x ≠ '/') (hc : c ≠ '/') :
    githubMatchAt ("github.com/".data ++ (ow ++ '/' :: c :: t)) =
      some (ow, (c :: t).takeWhile (fun x => x ≠ '/')) := by
  have hempty : ow.isEmpty = false := by
    cases ow with
    | nil => exact absurd rfl h1
    | cons a l => rfl
  have hd11 : ("github.com/".data ++ (ow ++ '/' :: c :: t)).drop 11 =
      ow ++ '/' :: c :: t := by
    rw [show (11 : Nat) = "github.com/".data.length from rfl, List.drop_left]
  have htake := takeWhile_append_slash ow (c :: t) h2
  have htake2 : (c :: t).takeWhile (fun x => x ≠ '/') =
      c :: t.takeWhile (fun x => x ≠ '/') := by
    rw [List.takeWhile_cons, if_pos (by simp [hc])]
  unfold githubMatchAt
  rw [if_pos (isPreOf_append_self _ _)]
  simp only [hd11, htake, List.drop_left]
  rw [if_neg (by rw [hempty]; exact Bool.false_ne_true)]
  simp only [htake2]
  simp

/-- C9. Remote-versus-local classification is an unanchored substring test:
every input containing `github.com/{segment}/{segment}` anywhere — no matter
what precedes or follows — is classified as a remote GitHub repository, so
the analysis takes the remote branch and never the local one. -/
theorem github_substring_classified_remote (pre ow rp post : String)
    (h1 : ow.data ≠ []) (h2 : rp.data ≠ [])
    (h3 : ∀ c ∈ ow.data, c ≠ '/') (h4 : ∀ c ∈ rp.data, c ≠ '/') :
    isGithubUrl (pre ++ "github.com/" ++ ow ++ "/" ++ rp ++ post) = true ∧
      ∀ w : World,
        detectSSRBody w (pre ++ "github.com/" ++ ow ++ "/" ++ rp ++ post) =
          remoteBody w (pre ++ "github.com/" ++ ow ++ "/" ++ rp ++ post) := by
  have hdata : (pre ++ "github.com/" ++ ow ++ "/" ++ rp ++ post).data =
      pre.data ++ ("github.com/".data ++ (ow.data ++ '/' :: (rp.data ++ post.data))) := by
    simp [String.data_append, List.append_assoc]
  have hg : isGithubUrl (pre ++ "github.com/" ++ ow ++ "/" ++ rp ++ post) = true := by
    unfold isGithubUrl
    rw [hdata]
    apply githubFind_append_isSome
    obtain ⟨c, t, hct⟩ : ∃ c t, rp.data = c :: t := by
      cases hrp : rp.data with
      | nil => exact absurd hrp h2
      | cons c t => exact ⟨c, t, rfl⟩
    have hc : c ≠ '/' := h4 c (by rw [hct]; simp)
    have key : (githubMatchAt
        ("github.com/".data ++ (ow.data ++ '/' :: c :: (t ++ post.data)))).isSome = true := by
      rw [githubMatchAt_at ow.data c (t ++ post.data) h1 h3 hc]
      rfl
    have hshape : rp.data ++ post.data = c :: (t ++ post.data) := by
      rw [hct]; rfl
    rw [hshape]
    exact key
  exact ⟨hg, fun w => by unfold detectSSRBody; rw [if_pos hg]⟩

/-- A world for probing which branch the classifier takes. -/
def wProbe : World := mkLocalWorld none (mkParse [] "Unexpected token")

/-- C9 witness: the local filesystem path `/tmp/github.com/a/b` is classified
as a remote GitHub repository and analysed by the remote branch. -/
theorem github_substring_classified_remote_witness :
    isGithubUrl ("/tmp/" ++ "github.com/" ++ "a" ++ "/" ++ "b" ++ "") = true ∧
      detectSSRBody wProbe ("/tmp/" ++ "github.com/" ++ "a" ++ "/" ++ "b" ++ "") =
        remoteBody wProbe ("/tmp/" ++ "github.com/" ++ "a" ++ "/" ++ "b" ++ "") :=
  let T := github_substring_classified_remote "/tmp/" "a" "b" ""
    (by decide) (by decide) (by decide) (by decide)
  ⟨T.1, T.2 wProbe⟩

/-- C7 counterexample: for `https://github.com/acme/a.gitb` the code removes
the first occurrence of `.git` from the middle of the second path segment, so
the extracted repo is `ab`, not the intact segment `a.gitb` that
trailing-suffix-only stripping would leave. -/
theorem git_replace_not_trailing_cex :
    extractOwnerRepo "https://github.com/acme/a.gitb" = some ("acme", "ab") ∧
      ("ab" : String) ≠ "a.gitb" :=
  ⟨by decide, by decide⟩

/-- C7 (amended). For URLs of the form `https://github.com/{owner}/{repo}`
(both segments non-empty and slash-free), the analysis extracts the owner as
the first path segment, and the repo as the second path segment with the
FIRST occurrence of the substring `.git` removed, wherever it occurs — which
coincides with trailing-suffix stripping when `.git` occurs only at the end,
as in the `https://github.com/acme/widgets.git` scenario. -/
theorem extract_owner_repo_firstocc (ow rp : String)
    (h1 : ow.data ≠ []) (h2 : rp.data ≠ [])
    (h3 : ∀ c ∈ ow.data, c ≠ '/') (h4 : ∀ c ∈ rp.data, c ≠ '/') :
    extractOwnerRepo ("https://github.com/" ++ ow ++ "/" ++ rp) =
        some (ow, String.mk (replaceFirst dotGit rp.data)) ∧
      extractOwnerRepo "https://github.com/acme/widgets.git" =
        some ("acme", "widgets") := by
  refine ⟨?_, by decide⟩
  unfold extractOwnerRepo
  have hdata : ("https://github.com/" ++ ow ++ "/" ++ rp).data =
      "https://".data ++ ("github.com/".data ++ (ow.data ++ '/' :: rp.data)) := by
    simp [String.data_append, List.append_assoc]
  rw [hdata]
  rw [show "https://".data = 'h' :: 't' :: 't' :: 'p' :: 's' :: ':' :: '/' :: '/' :: [] from rfl]
  simp only [List.cons_append, List.nil_append]
  rw [githubFind_cons_ne _ _ (by decide), githubFind_cons_ne _ _ (by decide),
      githubFind_cons_ne _ _ (by decide), githubFind_cons_ne _ _ (by decide),
      githubFind_cons_ne _ _ (by decide), githubFind_cons_ne _ _ (by decide),
      githubFind_cons_ne _ _ (by decide), githubFind_cons_ne _ _ (by decide)]
  obtain ⟨c, t, hct⟩ : ∃ c t, rp.data = c :: t := by
    cases hrp : rp.data with
    | nil => exact absurd hrp h2
    | cons c t => exact ⟨c, t, rfl⟩
  have hc : c ≠ '/' := h4 c (by rw [hct]; simp)
  have hfind := githubFind_of_matchAt_some _ _ (githubMatchAt_at ow.data c t h1 h3 hc)
  rw [show "github.com/".data =
      'g' :: 'i' :: 't' :: 'h' :: 'u' :: 'b' :: '.' :: 'c' :: 'o' :: 'm' :: '/' :: []
      from rfl] at hfind
  simp only [List.cons_append, List.nil_append] at hfind
  rw [hct, hfind]
  have hrepo : (c :: t).takeWhile (fun x => x ≠ '/') = rp.data := by
    rw [← hct]; exact takeWhile_ne_slash_all rp.data h4
  rw [hrepo]
  simp [Option.map]
  rw [hct]

/-- C7 witness: the amended extraction theorem applied to the
`acme`/`widgets.git` scenario. -/
theorem extract_owner_repo_firstocc_witness :
    (("acme" : String).data ≠ [] ∧ ("widgets.git" : String).data ≠ [] ∧
        (∀ c ∈ ("acme" : String).data, c ≠ '/') ∧
        (∀ c ∈ ("widgets.git" : String).data, c ≠ '/')) ∧
      (extractOwnerRepo ("https://github.com/" ++ "acme" ++ "/" ++ "widgets.git") =
          some ("acme", String.mk (replaceFirst dotGit ("widgets.git" : String).data)) ∧
        extractOwnerRepo "https://github.com/acme/widgets.git" =
          some ("acme", "widgets")) :=
  ⟨⟨by decide, by decide, by decide, by decide⟩,
   extract_owner_repo_firstocc "acme" "widgets.git"
     (by decide) (by decide) (by decide) (by decide)⟩
